import Mathlib

/-!
Verification of the llfs storage-file builder / config-block chain subsystem.

Part 1 embeds `llfs::PackedBytes` and its sizing functions directly from
`src/llfs/packed_bytes.hpp`.  Part 2 models the storage-file builder, the
config-block chain, the flush write plan and the reader; the builder sources
(`storage_file_builder`, `PackedConfigBlock`, `read_storage_file`) are not part
of the repository snapshot (only their tests are), so those definitions are
modelled from the specification document, as indicated by their doc comments.
-/

set_option maxHeartbeats 1000000
set_option maxRecDepth 100000

namespace LlfsSpec

/-- Embedding of the C++ struct `llfs::PackedBytes` (src/llfs/packed_bytes.hpp).
`data_offset` and `data_size` are little-endian 24-bit unsigned fields, modelled
as natural numbers; `unusedByte` and `reservedByte` model the two padding
bytes. -/
structure PackedBytes where
  data_offset : Nat
  unusedByte : Nat
  data_size : Nat
  reservedByte : Nat
deriving DecidableEq

/-- Value of `sizeof(PackedBytes)`; the source checks it is 8 with
`BATT_STATIC_ASSERT_EQ(sizeof(PackedBytes), 8)`. -/
def sizeofPackedBytes : Nat := 8

/-- Embedding of `PackedBytes::size()`: if `data_offset < sizeof(PackedBytes)`
the record is inline and the size is `sizeof(PackedBytes) - data_offset`,
otherwise it is `data_size`. -/
def PackedBytes.size (rec : PackedBytes) : Nat :=
  if rec.data_offset < sizeofPackedBytes then sizeofPackedBytes - rec.data_offset
  else rec.data_size

/-- Embedding of `PackedBytes::data()`: the payload begins at the address of the
record plus `data_offset`.  `A` is the absolute address of the record. -/
def PackedBytes.dataAddr (rec : PackedBytes) (A : Nat) : Nat := A + rec.data_offset

/-- Payload byte range of a record located at address `A`, as the half-open
interval `[data(), data() + size())`, exactly as `PackedBytes::bytes_range()`
computes it from `data()` and `size()`. -/
def PackedBytes.payloadRange (rec : PackedBytes) (A : Nat) : Nat × Nat :=
  (rec.dataAddr A, rec.dataAddr A + rec.size)

/-- Embedding of `PackedBytes::as_str()`: the returned view has length
`size()`. -/
def PackedBytes.as_str_len (rec : PackedBytes) : Nat := rec.size

/-- Embedding of `llfs::packed_sizeof_str_data`. -/
def packed_sizeof_str_data (len : Nat) : Nat :=
  if len ≤ 4 then 0 else len

/-- Embedding of `llfs::packed_sizeof_str`. -/
def packed_sizeof_str (len : Nat) : Nat :=
  sizeofPackedBytes + packed_sizeof_str_data len

/-- Embedding of `llfs::packed_sizeof(const PackedBytes&)`, which calls
`packed_sizeof_str(rec.size())`. -/
def packed_sizeof_rec (rec : PackedBytes) : Nat := packed_sizeof_str rec.size

/-- Embedding of `llfs::packed_sizeof(const std::string_view&)` applied to
`rec.as_str()` (whose length is `rec.size()`). -/
def packed_sizeof_as_str (rec : PackedBytes) : Nat := packed_sizeof_str rec.as_str_len

/-- Modelled from the spec: `batt::round_up_bits(bits, n)` rounds `n` up to the
next multiple of `2 ^ bits` (the builder implementation is not in the snapshot;
only its tests are).  Written with division and multiplication, which agrees
with the bit-mask form on natural numbers. -/
def round_up_bits (bits n : Nat) : Nat :=
  ((n + 2 ^ bits - 1) / 2 ^ bits) * 2 ^ bits

/-- Modelled from the spec: `llfs::PageDeviceConfigOptions` — the options passed
to `StorageFileBuilder::add_object`: optional `uuid`, optional `device_id`,
`page_count` and `page_size_log2` (valid range 9 to 24). -/
structure PageDeviceConfigOptions where
  uuid : Option Nat
  device_id : Option Nat
  page_count : Nat
  page_size_log2 : Nat
deriving DecidableEq

/-- Option validity per the spec: `page_size_log2 ∈ [9, 24]` and a nonzero page
count. -/
def ValidOptions (o : PageDeviceConfigOptions) : Prop :=
  9 ≤ o.page_size_log2 ∧ o.page_size_log2 ≤ 24 ∧ 0 < o.page_count

instance (o : PageDeviceConfigOptions) : Decidable (ValidOptions o) := by
  unfold ValidOptions; infer_instance

/-- Modelled from the spec: the data of one `PackedPageDeviceConfig` slot as the
builder records it: the normalized fields plus the absolute payload start
(`payload_start`) the builder reserved for page 0, and the slot-relative
`page_0_offset` that is stored on disk. -/
structure SlotEntry where
  uuid : Nat
  device_id : Nat
  payload_start : Nat
  page_count : Nat
  page_size_log2 : Nat
  page_0_offset : Int
deriving DecidableEq

/-- Modelled from the spec: one in-progress config block of the builder: its
absolute file offset and the slot entries appended so far (at most 62). -/
structure BuilderBlock where
  block_offset : Nat
  entries : List SlotEntry
deriving DecidableEq

/-- Modelled from the spec: the state of `llfs::StorageFileBuilder` — the base
offset it was constructed with, the in-progress config blocks (most recent
first), the next free file offset, and the next automatically assigned device
id.  The builder sources are not in the snapshot; only their tests are. -/
structure Builder where
  base_offset : Nat
  blocks_rev : List BuilderBlock
  next_free : Nat
  next_device_id : Nat
deriving DecidableEq

/-- Modelled from the spec: a freshly constructed builder allocates starting at
`base_offset`, holds no config blocks, and assigns device ids from 0. -/
def Builder.init (base : Nat) : Builder :=
  ⟨base, [], base, 0⟩

/-- Modelled from the spec: the path of `add_object` that starts a new config
block at `round_up_bits 12 next_free` (because there is no open block, or the
open one already holds 62 slots), advances `next_free` past its 4096 bytes, and
appends the new slot as slot 0 of the new block.  The slot's absolute offset is
the new block offset plus the 64-byte fixed header, and the stored
`page_0_offset` is the reserved payload start minus that absolute offset. -/
def Builder.add_to_new_block (o : PageDeviceConfigOptions) (b : Builder) : Builder :=
  let F : Nat := round_up_bits 12 b.next_free
  let ps : Nat := round_up_bits o.page_size_log2 (F + 4096)
  let e : SlotEntry :=
    ⟨o.uuid.getD 0, o.device_id.getD b.next_device_id, ps, o.page_count,
      o.page_size_log2, (ps : Int) - ((F + 64 : Nat) : Int)⟩
  ⟨b.base_offset, ⟨F, [e]⟩ :: b.blocks_rev,
    ps + o.page_count * 2 ^ o.page_size_log2, b.next_device_id + 1⟩

/-- Modelled from the spec: the path of `add_object` that appends a slot to the
open config block `blk` (which has fewer than 62 slots).  The slot's absolute
offset is the block offset plus the 64-byte fixed header plus 64 bytes per
preceding slot. -/
def Builder.add_to_block (o : PageDeviceConfigOptions) (b : Builder)
    (blk : BuilderBlock) (rest : List BuilderBlock) : Builder :=
  let slot_abs : Nat := blk.block_offset + 64 + 64 * blk.entries.length
  let ps : Nat := round_up_bits o.page_size_log2 b.next_free
  let e : SlotEntry :=
    ⟨o.uuid.getD 0, o.device_id.getD b.next_device_id, ps, o.page_count,
      o.page_size_log2, (ps : Int) - (slot_abs : Int)⟩
  ⟨b.base_offset, { blk with entries := blk.entries ++ [e] } :: rest,
    ps + o.page_count * 2 ^ o.page_size_log2, b.next_device_id + 1⟩

/-- Modelled from the spec: `StorageFileBuilder::add_object` for a page-device
config.  Normalizes the options (sequential `device_id` when absent), locates
the current open config block — opening a new 4096-aligned one when there is
none or the open one holds 62 slots — reserves the aligned payload region
(`payload_start = round_up_bits page_size_log2 next_free`), and appends a slot
whose stored `page_0_offset` is the payload start minus the slot's absolute
file offset. -/
def Builder.add_object (o : PageDeviceConfigOptions) (b : Builder) : Builder :=
  match b.blocks_rev with
  | [] => b.add_to_new_block o
  | blk :: rest =>
      if blk.entries.length < 62 then b.add_to_block o blk rest
      else b.add_to_new_block o

/-- Modelled from the spec: the builder state after constructing with
`base_offset = base` and issuing the given sequence of `add_object` calls. -/
def build (base : Nat) (opts : List PageDeviceConfigOptions) : Builder :=
  opts.foldl (fun b o => b.add_object o) (Builder.init base)

/-- The builder's config blocks in chain order (oldest first). -/
def Builder.blocks (b : Builder) : List BuilderBlock :=
  b.blocks_rev.reverse

/-- Modelled from the spec: the sentinel `kNullFileOffset` distinguishing "no
neighbor" from any valid relative offset (the spec permits `i64::MIN`). -/
def kNullFileOffset : Int := -(2 ^ 63)

/-- Modelled from the spec: the fixed 64-bit magic sentinel
`PackedConfigBlock::kMagic`. -/
def kMagic : Nat := 0x11EF5C0FF16B10C4

/-- Modelled from the spec: `llfs::make_version_u64(major, minor, patch)` packs
a version as `(major << 32) | (minor << 16) | patch`. -/
def make_version_u64 (major minor patch : Nat) : Nat :=
  (major <<< 32) ||| (minor <<< 16) ||| patch

/-- Modelled from the spec: a decoded `llfs::PackedConfigSlot` holding a
`PackedPageDeviceConfig` variant: tag, 128-bit uuid, device id, slot-relative
`page_0_offset`, page count and page size exponent. -/
structure PackedConfigSlot where
  tag : Nat
  uuid : Nat
  device_id : Nat
  page_0_offset : Int
  page_count : Nat
  page_size_log2 : Nat
deriving DecidableEq

/-- Modelled from the spec: the slot tag value for the `PageDevice` variant. -/
def kTagPageDevice : Nat := 1

/-- Modelled from the spec: a decoded 4096-byte `llfs::PackedConfigBlock`:
magic, version, prev/next relative block offsets, the bounded slot array and the
trailing CRC-64 field. -/
structure PackedConfigBlock where
  magic : Nat
  version : Nat
  prev_offset : Int
  next_offset : Int
  slots : List PackedConfigSlot
  crc64 : Nat
deriving DecidableEq

/-- The packed slot written for a builder slot entry. -/
def SlotEntry.toSlot (e : SlotEntry) : PackedConfigSlot :=
  ⟨kTagPageDevice, e.uuid, e.device_id, e.page_0_offset, e.page_count,
    e.page_size_log2⟩

/-- Little-endian encoding of `v` into `w` bytes (each byte a natural number
below 256). -/
def le_bytes (w v : Nat) : List Nat :=
  (List.range w).map (fun i => v / 256 ^ i % 256)

/-- Little-endian two's-complement encoding of a signed 64-bit value into 8
bytes. -/
def le_bytes_i64 (v : Int) : List Nat :=
  le_bytes 8 (v.emod (2 ^ 64)).toNat

/-- Modelled from the spec: the 64-byte on-disk image of one config slot: tag,
padding, uuid (16), device id (8), slot-relative page-0 offset (8, signed),
page count (8), page size exponent (1), padding to 64 bytes. -/
def slot_image (s : PackedConfigSlot) : List Nat :=
  le_bytes 1 s.tag ++ List.replicate 7 0 ++ le_bytes 16 s.uuid ++
    le_bytes 8 s.device_id ++ le_bytes_i64 s.page_0_offset ++
    le_bytes 8 s.page_count ++ le_bytes 1 s.page_size_log2 ++
    List.replicate 15 0

/-- Modelled from the spec: the 4096-byte on-disk image of a config block:
magic (8), version (8), prev offset (8), next offset (8), slot count (8), the
62-slot array region (62 × 64 bytes, unused slots zeroed), 80 reserved bytes,
and the CRC-64 field (8). -/
def block_image (b : PackedConfigBlock) : List Nat :=
  le_bytes 8 b.magic ++ le_bytes 8 b.version ++ le_bytes_i64 b.prev_offset ++
    le_bytes_i64 b.next_offset ++ le_bytes 8 b.slots.length ++
    (b.slots.map slot_image).flatten ++
    List.replicate ((62 - b.slots.length) * 64) 0 ++
    List.replicate 80 0 ++ le_bytes 8 b.crc64

/-- Modelled from the spec: `PackedConfigBlock::true_crc64()` — the CRC-64 of
the block image with the `crc64` field zeroed.  The CRC-64 primitive itself is
an external collaborator, so it is taken as a parameter `crc`. -/
def true_crc64 (crc : List Nat → Nat) (b : PackedConfigBlock) : Nat :=
  crc (block_image { b with crc64 := 0 })

/-- Modelled from the spec: finalize one builder block into a packed config
block with the given prev/next linkage, computing the stored CRC over the image
with the CRC field zeroed. -/
def mk_block (crc : List Nat → Nat) (blk : BuilderBlock) (prev next : Int) :
    PackedConfigBlock :=
  let pre : PackedConfigBlock :=
    ⟨kMagic, make_version_u64 0 1 0, prev, next, blk.entries.map SlotEntry.toSlot, 0⟩
  { pre with crc64 := crc (block_image pre) }

/-- The `prev_offset` linkage value of a block at offset `off` whose
predecessor, if any, sits at offset `p`: `kNullFileOffset` for the first block,
otherwise the (negative) relative offset of the predecessor. -/
def linkPrev (p : Option Nat) (off : Nat) : Int :=
  match p with
  | none => kNullFileOffset
  | some q => (q : Int) - (off : Int)

/-- Modelled from the spec: finalize the chain linkage of the builder blocks.
`p` is the file offset of the previous block, if any; each finalized block is
paired with its absolute file offset. -/
def link_blocks (crc : List Nat → Nat) (p : Option Nat) :
    List BuilderBlock → List (Nat × PackedConfigBlock)
  | [] => []
  | blk :: rest =>
      let next : Int :=
        match rest with
        | [] => kNullFileOffset
        | b2 :: _ => (b2.block_offset : Int) - (blk.block_offset : Int)
      (blk.block_offset, mk_block crc blk (linkPrev p blk.block_offset) next) ::
        link_blocks crc (some blk.block_offset) rest

/-- Modelled from the spec: the finalized config blocks produced by
`flush_all`, paired with their absolute file offsets, in chain order. -/
def flush_blocks (crc : List Nat → Nat) (b : Builder) :
    List (Nat × PackedConfigBlock) :=
  link_blocks crc none b.blocks

/-- Modelled from the spec: version compatibility — the major number must match
the implementation (0) and the minor number must be at most the implementation
minor (1). -/
def version_compatible (v : Nat) : Bool :=
  (v >>> 32 == 0) && decide ((v >>> 16) % 65536 ≤ 1)

/-- Modelled from the spec: reader-side validation of one config block: magic,
version compatibility, and the stored CRC against `true_crc64`. -/
def block_valid (crc : List Nat → Nat) (b : PackedConfigBlock) : Bool :=
  (b.magic == kMagic) && version_compatible b.version &&
    (b.crc64 == true_crc64 crc b)

/-- A flushed storage file, modelled as the association list from absolute file
offset to the config block written there. -/
abbrev StorageFileImage : Type := List (Nat × PackedConfigBlock)

/-- Look up the config block written at absolute offset `off`. -/
def lookup_block (file : StorageFileImage) (off : Nat) :
    Option PackedConfigBlock :=
  match List.find? (fun e => e.1 == off) file with
  | some e => some e.2
  | none => none

/-- Modelled from the spec: a read failure is reported as `DataLoss` carrying
the offending offset. -/
inductive ReadError where
  | dataLoss (offset : Int)
deriving DecidableEq

instance {ε α : Type} [DecidableEq ε] [DecidableEq α] : DecidableEq (Except ε α) :=
  fun x y =>
    match x, y with
    | .ok a, .ok b => decidable_of_iff (a = b) (by simp)
    | .error a, .error b => decidable_of_iff (a = b) (by simp)
    | .ok _, .error _ => isFalse (by intro hc; exact Except.noConfusion hc)
    | .error _, .ok _ => isFalse (by intro hc; exact Except.noConfusion hc)

/-- Modelled from the spec: the chain traversal of `read_storage_file`: read the
block at the current offset, validate it, and follow `next_offset` until the
null sentinel; visited offsets are tracked and a revisit (or exhausted fuel) is
a cycle, reported as `DataLoss`. -/
def read_chain (crc : List Nat → Nat) (file : StorageFileImage) :
    Nat → Nat → List Nat → Except ReadError (List (Nat × PackedConfigBlock))
  | 0, off, _ => .error (.dataLoss off)
  | fuel + 1, off, visited =>
      if off ∈ visited then .error (.dataLoss off)
      else
        (lookup_block file off).elim (.error (.dataLoss off)) (fun b =>
          if block_valid crc b then
            if b.next_offset = kNullFileOffset then .ok [(off, b)]
            else
              if ((off : Int) + b.next_offset) < 0 then
                .error (.dataLoss ((off : Int) + b.next_offset))
              else
                Except.map (fun rest => (off, b) :: rest)
                  (read_chain crc file fuel ((off : Int) + b.next_offset).toNat
                    (off :: visited))
          else .error (.dataLoss off))

/-- Modelled from the spec: `llfs::read_storage_file(source, start_offset)` —
start at `round_up_bits 12 start_offset` and traverse the chain, returning the
decoded blocks paired with their absolute file offsets. -/
def read_storage_file (crc : List Nat → Nat) (file : StorageFileImage)
    (start_offset : Nat) : Except ReadError (List (Nat × PackedConfigBlock)) :=
  read_chain crc file (file.length + 1) (round_up_bits 12 start_offset) []

/-- Modelled from the spec: one call on the raw block-file sink during flush:
either `truncate_at_least len` or `write_some offset bytes`. -/
inductive IoOp where
  | truncate (len : Nat)
  | write (offset : Nat) (bytes : List Nat)
deriving DecidableEq

/-- Modelled from the spec: the per-device page pre-initialization writes: one
512-byte zero write per page, at the start of each page of the device. -/
def preinit_writes (e : SlotEntry) : List IoOp :=
  (List.range e.page_count).map
    (fun j => .write (e.payload_start + j * 2 ^ e.page_size_log2)
      (List.replicate 512 0))

/-- Modelled from the spec: the ordered I/O plan of `flush_all`: truncate the
file to the final size, then (when `kFastIoRingPageDeviceInit` is false) the
per-page pre-initialization writes in slot order, then the 4096-byte config
block writes in chain order.  An empty builder performs no calls. -/
def write_plan (crc : List Nat → Nat) (fastInit : Bool) (b : Builder) :
    List IoOp :=
  if b.blocks_rev.isEmpty then []
  else
    .truncate b.next_free ::
      ((if fastInit then []
        else (b.blocks.flatMap (fun blk => blk.entries)).flatMap preinit_writes) ++
        (flush_blocks crc b).map (fun e => .write e.1 (block_image e.2)))

/-- Structural invariants the builder maintains across `add_object` calls:
block offsets strictly decrease in `blocks_rev` (so they strictly increase in
chain order); every block lies wholly below `next_free`; a fresh builder's
`next_free` is its base offset; the chain's first block sits at
`round_up_bits 12 base`; and no block holds more than 62 slots. -/
structure BInv (base : Nat) (b : Builder) : Prop where
  sorted : (b.blocks_rev.map BuilderBlock.block_offset).Pairwise (fun x y => y < x)
  room : ∀ blk ∈ b.blocks_rev, blk.block_offset + 4096 ≤ b.next_free
  empty_nf : b.blocks_rev = [] → b.next_free = base
  first_off : ∀ off ∈ (b.blocks_rev.map BuilderBlock.block_offset).getLast?,
      off = round_up_bits 12 base
  slots_le : ∀ blk ∈ b.blocks_rev, blk.entries.length ≤ 62

/-- Concrete sample CRC function used by witnesses. -/
def crcZero : List Nat → Nat := fun _ => 0

/-- Concrete two-block builder state used by the C4 witness. -/
def c4wBuilder : Builder := ⟨0, [⟨4096, []⟩, ⟨0, []⟩], 8192, 0⟩

/-- The finalized first block of `c4wBuilder`. -/
def c4wX0 : Nat × PackedConfigBlock :=
  (0, mk_block crcZero ⟨0, []⟩ kNullFileOffset 4096)

/-- The finalized second block of `c4wBuilder`. -/
def c4wX1 : Nat × PackedConfigBlock :=
  (4096, mk_block crcZero ⟨4096, []⟩ (-4096) kNullFileOffset)

/-- How one `add_object` call changes the per-block slot counts (most recent
block first): start a first block with one slot, append to the current block
while it has room, and open a fresh block when it holds 62 slots. -/
def step_counts (l : List Nat) : List Nat :=
  match l with
  | [] => [1]
  | c :: cs => if c < 62 then (c + 1) :: cs else 1 :: c :: cs

/-- Per-block slot counts (most recent block first) after `n` objects. -/
def rcounts : Nat → List Nat
  | 0 => []
  | n + 1 => step_counts (rcounts n)

/-- The slot at index `i` of a block at offset `blkoff` sits at absolute file
offset `blkoff + 64 + 64 * i` (64-byte fixed header, 64 bytes per preceding
slot); the entry is well-formed when its stored `page_0_offset` is its absolute
payload start minus that slot offset, and the payload start is aligned to the
page size. -/
def entry_ok (blkoff i : Nat) (e : SlotEntry) : Prop :=
  e.page_0_offset =
      (e.payload_start : Int) - ((blkoff + 64 + 64 * i : Nat) : Int)
    ∧ 2 ^ e.page_size_log2 ∣ e.payload_start

instance (blkoff i : Nat) (e : SlotEntry) : Decidable (entry_ok blkoff i e) := by
  unfold entry_ok
  infer_instance

/-- All entries of a slot list are well-formed, the first being slot `i`. -/
def entries_ok (blkoff : Nat) : Nat → List SlotEntry → Prop
  | _, [] => True
  | i, e :: es => entry_ok blkoff i e ∧ entries_ok blkoff (i + 1) es

/-- Every block of the builder has well-formed slot entries. -/
def slots_ok (b : Builder) : Prop :=
  ∀ blk ∈ b.blocks_rev, entries_ok blk.block_offset 0 blk.entries

/-- One-block, one-slot builder output used by the C1 witness. -/
def c1wBlk : BuilderBlock := ⟨0, [⟨0, 0, 4096, 10, 12, 4032⟩]⟩

/-- The finalized single block of `build 0 [⟨none, none, 10, 12⟩]`, used by the
C5 witness. -/
def c5wX : Nat × PackedConfigBlock :=
  (0, mk_block crcZero ⟨0, [⟨0, 0, 4096, 10, 12, 4032⟩]⟩ kNullFileOffset
    kNullFileOffset)

/-- Recognize a 4096-byte (config block) write and return its target offset. -/
def block_write_off (op : IoOp) : Option Nat :=
  match op with
  | .truncate _ => none
  | .write off bytes => if bytes.length = 4096 then some off else none

/-- C7: reading a `PackedBytes` record at address `A`: when `data_offset < 8`
the payload is the record's own bytes `[A + data_offset, A + 8)` — `size()`
returns `8 - data_offset` and `data_size` is ignored — and when
`data_offset ≥ 8` the payload lives at `A + data_offset` with length
`data_size`. -/
theorem c7_packed_bytes_read (rec : PackedBytes) (A : Nat) :
    (rec.size = if rec.data_offset < 8 then 8 - rec.data_offset else rec.data_size)
    ∧ rec.payloadRange A =
        (A + rec.data_offset,
          if rec.data_offset < 8 then A + 8 else A + rec.data_offset + rec.data_size)
    ∧ (∀ ds : Nat, rec.data_offset < 8 →
        PackedBytes.size { rec with data_size := ds } = rec.size) := by
  refine ⟨rfl, ?_, ?_⟩
  · rw [Prod.ext_iff]
    simp only [PackedBytes.payloadRange, PackedBytes.dataAddr, PackedBytes.size,
      sizeofPackedBytes]
    by_cases h : rec.data_offset < 8
    · simp only [if_pos h]
      exact ⟨trivial, by omega⟩
    · simp only [if_neg h]
      exact ⟨trivial, trivial⟩
  · intro ds h
    simp [PackedBytes.size, sizeofPackedBytes, h]

/-- Witness for C7 at the concrete inline record `⟨3, 0, 5, 0⟩`. -/
theorem c7_packed_bytes_read_witness :
    (3 : Nat) < 8 ∧
      PackedBytes.size ⟨3, 0, 7, 0⟩ = PackedBytes.size ⟨3, 0, 5, 0⟩ :=
  ⟨by decide, (c7_packed_bytes_read ⟨3, 0, 5, 0⟩ 100).2.2 7 (by decide)⟩

/-- C8: the packed size of encoding a blob of length `L` as a `PackedBytes`
record is 8 bytes when `L ≤ 4` and `8 + L` bytes otherwise; in particular a
4-byte blob packs into 8 bytes total and a 5-byte blob into 13 bytes total. -/
theorem c8_packed_sizeof_str (L : Nat) :
    packed_sizeof_str L = (if L ≤ 4 then 8 else 8 + L)
    ∧ packed_sizeof_str 4 = 8
    ∧ packed_sizeof_str 5 = 13 := by
  refine ⟨?_, rfl, rfl⟩
  simp only [packed_sizeof_str, packed_sizeof_str_data, sizeofPackedBytes]
  by_cases h : L ≤ 4 <;> simp [h]

/-- C10: `packed_sizeof(rec)` equals `packed_sizeof(rec.as_str())`, both equal
to 8 when `rec.size() ≤ 4` and `8 + rec.size()` otherwise; for an inline record
with `data_offset < 4` (an inline payload of 5 to 8 bytes) `packed_sizeof`
reports strictly more than the 8 bytes the record occupies. -/
theorem c10_packed_sizeof_rec (rec : PackedBytes) :
    packed_sizeof_rec rec = packed_sizeof_as_str rec
    ∧ packed_sizeof_rec rec = (if rec.size ≤ 4 then 8 else 8 + rec.size)
    ∧ (rec.data_offset < 4 → sizeofPackedBytes < packed_sizeof_rec rec) := by
  refine ⟨rfl, ?_, ?_⟩
  · simp only [packed_sizeof_rec, packed_sizeof_str, packed_sizeof_str_data,
      sizeofPackedBytes]
    by_cases h : rec.size ≤ 4 <;> simp [h]
  · intro h
    have hsz : 4 < rec.size := by
      simp only [PackedBytes.size, sizeofPackedBytes]
      rw [if_pos (by omega)]
      omega
    simp only [packed_sizeof_rec, packed_sizeof_str, packed_sizeof_str_data,
      sizeofPackedBytes]
    rw [if_neg (by omega)]
    omega

/-- Witness for C10 at the concrete record `⟨2, 0, 0, 0⟩` (an inline record with
a 6-byte payload): `packed_sizeof` reports more than 8 bytes. -/
theorem c10_packed_sizeof_rec_witness :
    (2 : Nat) < 4 ∧ sizeofPackedBytes < packed_sizeof_rec ⟨2, 0, 0, 0⟩ :=
  ⟨by decide, (c10_packed_sizeof_rec ⟨2, 0, 0, 0⟩).2.2 (by decide)⟩

/-- Round-up never decreases its argument. -/
theorem le_round_up_bits (bits n : Nat) : n ≤ round_up_bits bits n := by
  unfold round_up_bits
  have hpos : 0 < 2 ^ bits := Nat.pos_pow_of_pos bits (by omega)
  have h := Nat.lt_div_mul_add (a := n + 2 ^ bits - 1) hpos
  omega

/-- Round-up produces a multiple of `2 ^ bits`. -/
theorem dvd_round_up_bits (bits n : Nat) : 2 ^ bits ∣ round_up_bits bits n :=
  dvd_mul_left _ _

/-- Round-up is tight: the result is below `n + 2 ^ bits`. -/
theorem round_up_bits_lt (bits n : Nat) : round_up_bits bits n < n + 2 ^ bits := by
  unfold round_up_bits
  have hpos : 0 < 2 ^ bits := Nat.pos_pow_of_pos bits (by omega)
  have h := Nat.div_mul_le_self (n + 2 ^ bits - 1) (2 ^ bits)
  omega

theorem le_bytes_length (w v : Nat) : (le_bytes w v).length = w := by
  simp [le_bytes]

theorem le_bytes_i64_length (v : Int) : (le_bytes_i64 v).length = 8 := by
  simp [le_bytes_i64, le_bytes_length]

theorem slot_image_length (s : PackedConfigSlot) : (slot_image s).length = 64 := by
  simp [slot_image, le_bytes_length, le_bytes_i64_length]

theorem block_image_length (b : PackedConfigBlock) (h : b.slots.length ≤ 62) :
    (block_image b).length = 4096 := by
  simp only [block_image, List.length_append, le_bytes_length, le_bytes_i64_length,
    List.length_replicate, List.length_flatten, List.map_map]
  have hmap : (b.slots.map (List.length ∘ slot_image)).sum = b.slots.length * 64 := by
    induction b.slots with
    | nil => simp
    | cons s rest ih =>
        simp [Function.comp, slot_image_length, ih, Nat.mul_comm, Nat.mul_add,
          Nat.succ_mul]
        omega
  rw [hmap]
  omega

theorem mk_block_slots (crc : List Nat → Nat) (blk : BuilderBlock) (prev next : Int) :
    (mk_block crc blk prev next).slots = blk.entries.map SlotEntry.toSlot := rfl

theorem mk_block_fields (crc : List Nat → Nat) (blk : BuilderBlock)
    (prev next : Int) :
    (mk_block crc blk prev next).magic = kMagic
    ∧ (mk_block crc blk prev next).version = make_version_u64 0 1 0
    ∧ (mk_block crc blk prev next).prev_offset = prev
    ∧ (mk_block crc blk prev next).next_offset = next :=
  ⟨rfl, rfl, rfl, rfl⟩

theorem mk_block_crc (crc : List Nat → Nat) (blk : BuilderBlock) (prev next : Int) :
    (mk_block crc blk prev next).crc64 = true_crc64 crc (mk_block crc blk prev next) := by
  simp [mk_block, true_crc64]

theorem version_compatible_current : version_compatible (make_version_u64 0 1 0) = true := by
  decide

theorem block_valid_mk (crc : List Nat → Nat) (blk : BuilderBlock) (prev next : Int) :
    block_valid crc (mk_block crc blk prev next) = true := by
  simp only [block_valid, Bool.and_eq_true, beq_iff_eq]
  refine ⟨⟨rfl, ?_⟩, ?_⟩
  · exact version_compatible_current
  · exact mk_block_crc crc blk prev next

/-- Every finalized entry of `link_blocks` is an `mk_block` of the corresponding
builder block, paired with that block's file offset. -/
theorem mem_link_blocks (crc : List Nat → Nat) :
    ∀ (p : Option Nat) (bs : List BuilderBlock),
      ∀ x ∈ link_blocks crc p bs,
        ∃ blk ∈ bs, ∃ prev next,
          x = (blk.block_offset, mk_block crc blk prev next) := by
  intro p bs
  induction bs generalizing p with
  | nil => intro x hx; simp [link_blocks] at hx
  | cons blk rest ih =>
      intro x hx
      simp only [link_blocks, List.mem_cons] at hx
      rcases hx with h | h
      · exact ⟨blk, by simp, _, _, h⟩
      · obtain ⟨blk2, hb2, prev, next, hx⟩ := ih (some blk.block_offset) x h
        exact ⟨blk2, by simp [hb2], prev, next, hx⟩

theorem link_blocks_length (crc : List Nat → Nat) :
    ∀ (p : Option Nat) (bs : List BuilderBlock),
      (link_blocks crc p bs).length = bs.length := by
  intro p bs
  induction bs generalizing p with
  | nil => rfl
  | cons blk rest ih => simp [link_blocks, ih]

theorem link_blocks_map_fst (crc : List Nat → Nat) :
    ∀ (p : Option Nat) (bs : List BuilderBlock),
      (link_blocks crc p bs).map Prod.fst = bs.map BuilderBlock.block_offset := by
  intro p bs
  induction bs generalizing p with
  | nil => rfl
  | cons blk rest ih => simp [link_blocks, ih]

theorem init_inv (base : Nat) : BInv base (Builder.init base) := by
  refine ⟨?_, ?_, ?_, ?_, ?_⟩ <;> simp [Builder.init]

theorem add_to_new_block_inv (base : Nat) (o : PageDeviceConfigOptions)
    (b : Builder) (h : BInv base b) : BInv base (b.add_to_new_block o) := by
  have hF : b.next_free ≤ round_up_bits 12 b.next_free := le_round_up_bits _ _
  have hps : round_up_bits 12 b.next_free + 4096 ≤
      round_up_bits o.page_size_log2 (round_up_bits 12 b.next_free + 4096) :=
    le_round_up_bits _ _
  refine ⟨?_, ?_, ?_, ?_, ?_⟩
  · simp only [Builder.add_to_new_block, List.map_cons, List.pairwise_cons]
    refine ⟨?_, h.sorted⟩
    intro off hoff
    simp only [List.mem_map] at hoff
    obtain ⟨blk, hblk, rfl⟩ := hoff
    have := h.room blk hblk
    omega
  · intro blk hblk
    simp only [Builder.add_to_new_block, List.mem_cons] at hblk ⊢
    rcases hblk with rfl | hblk
    · simp
      omega
    · have := h.room blk hblk
      simp
      omega
  · intro hempty
    simp [Builder.add_to_new_block] at hempty
  · intro off hoff
    simp only [Builder.add_to_new_block, List.map_cons] at hoff
    rcases hrest : b.blocks_rev.map BuilderBlock.block_offset with _ | ⟨o2, rest⟩
    · rw [hrest] at hoff
      simp only [List.getLast?_singleton, Option.mem_def, Option.some.injEq] at hoff
      subst hoff
      have hbempty : b.blocks_rev = [] := by
        rcases hb : b.blocks_rev with _ | _
        · rfl
        · rw [hb] at hrest; simp at hrest
      rw [h.empty_nf hbempty]
    · rw [hrest] at hoff
      rw [List.getLast?_cons_cons] at hoff
      apply h.first_off
      rw [hrest]
      rcases rest with _ | _
      · simpa using hoff
      · rw [List.getLast?_cons_cons]
        exact hoff
  · intro blk hblk
    simp only [Builder.add_to_new_block, List.mem_cons] at hblk
    rcases hblk with rfl | hblk
    · simp
    · exact h.slots_le blk hblk

theorem add_to_block_inv (base : Nat) (o : PageDeviceConfigOptions) (b : Builder)
    (blk : BuilderBlock) (rest : List BuilderBlock)
    (hb : b.blocks_rev = blk :: rest) (hlen : blk.entries.length < 62)
    (h : BInv base b) : BInv base (b.add_to_block o blk rest) := by
  have hnf : b.next_free ≤ round_up_bits o.page_size_log2 b.next_free :=
    le_round_up_bits _ _
  have hmap : ((b.add_to_block o blk rest).blocks_rev.map BuilderBlock.block_offset)
      = (b.blocks_rev.map BuilderBlock.block_offset) := by
    simp [Builder.add_to_block, hb]
  refine ⟨?_, ?_, ?_, ?_, ?_⟩
  · rw [hmap]; exact h.sorted
  · intro blk2 hblk2
    simp only [Builder.add_to_block, List.mem_cons] at hblk2
    have hblk2off : blk2.block_offset + 4096 ≤ b.next_free := by
      rcases hblk2 with rfl | hblk2
      · simpa using h.room blk (by rw [hb]; exact List.mem_cons_self _ _)
      · exact h.room blk2 (by rw [hb]; exact List.mem_cons_of_mem _ hblk2)
    simp only [Builder.add_to_block]
    omega
  · intro hempty
    simp [Builder.add_to_block] at hempty
  · intro off hoff
    rw [hmap] at hoff
    exact h.first_off off hoff
  · intro blk2 hblk2
    simp only [Builder.add_to_block, List.mem_cons] at hblk2
    rcases hblk2 with rfl | hblk2
    · simp
      omega
    · exact h.slots_le blk2 (by rw [hb]; exact List.mem_cons_of_mem _ hblk2)

theorem add_object_eq_new_of_nil (o : PageDeviceConfigOptions) (b : Builder)
    (hb : b.blocks_rev = []) : b.add_object o = b.add_to_new_block o := by
  unfold Builder.add_object
  rw [hb]

theorem add_object_eq_append (o : PageDeviceConfigOptions) (b : Builder)
    (blk : BuilderBlock) (rest : List BuilderBlock)
    (hb : b.blocks_rev = blk :: rest) (hlen : blk.entries.length < 62) :
    b.add_object o = b.add_to_block o blk rest := by
  unfold Builder.add_object
  rw [hb]
  exact if_pos hlen

theorem add_object_eq_new_of_full (o : PageDeviceConfigOptions) (b : Builder)
    (blk : BuilderBlock) (rest : List BuilderBlock)
    (hb : b.blocks_rev = blk :: rest) (hlen : ¬blk.entries.length < 62) :
    b.add_object o = b.add_to_new_block o := by
  unfold Builder.add_object
  rw [hb]
  exact if_neg hlen

theorem add_object_inv (base : Nat) (o : PageDeviceConfigOptions) (b : Builder)
    (h : BInv base b) : BInv base (b.add_object o) := by
  rcases hb : b.blocks_rev with _ | ⟨blk, rest⟩
  · rw [add_object_eq_new_of_nil o b hb]
    exact add_to_new_block_inv base o b h
  · by_cases hlen : blk.entries.length < 62
    · rw [add_object_eq_append o b blk rest hb hlen]
      exact add_to_block_inv base o b blk rest hb hlen h
    · rw [add_object_eq_new_of_full o b blk rest hb hlen]
      exact add_to_new_block_inv base o b h

theorem foldl_add_inv (base : Nat) (opts : List PageDeviceConfigOptions)
    (b : Builder) (h : BInv base b) :
    BInv base (opts.foldl (fun b o => b.add_object o) b) := by
  induction opts generalizing b with
  | nil => exact h
  | cons o rest ih => exact ih _ (add_object_inv base o b h)

theorem build_inv (base : Nat) (opts : List PageDeviceConfigOptions) :
    BInv base (build base opts) :=
  foldl_add_inv base opts _ (init_inv base)

theorem kNullFileOffset_eq : kNullFileOffset = -9223372036854775808 := by
  norm_num [kNullFileOffset]

theorem except_map_ok {e a b : Type} (f : a → b) (x : a) :
    Except.map f (Except.ok x : Except e a) = .ok (f x) := rfl

theorem lookup_block_cons_self (file : StorageFileImage) (off : Nat)
    (b : PackedConfigBlock) :
    lookup_block ((off, b) :: file) off = some b := by
  simp [lookup_block, List.find?_cons_of_pos]

theorem lookup_block_skip (pre file : StorageFileImage) (off : Nat)
    (h : ∀ e ∈ pre, e.1 ≠ off) :
    lookup_block (pre ++ file) off = lookup_block file off := by
  induction pre with
  | nil => rfl
  | cons e rest ih =>
      have he : ¬((fun x : Nat × PackedConfigBlock => x.1 == off) e = true) := by
        simp only [beq_iff_eq]
        exact h e (List.mem_cons_self _ _)
      simp only [List.cons_append, lookup_block]
      rw [@List.find?_cons_of_neg (Nat × PackedConfigBlock)
        (fun x : Nat × PackedConfigBlock => x.1 == off) e (rest ++ file) he]
      exact ih (fun e2 he2 => h e2 (List.mem_cons_of_mem _ he2))

theorem link_blocks_singleton (crc : List Nat → Nat) (p : Option Nat)
    (blk : BuilderBlock) :
    link_blocks crc p [blk] =
      [(blk.block_offset, mk_block crc blk (linkPrev p blk.block_offset)
        kNullFileOffset)] := rfl

theorem link_blocks_cons_cons (crc : List Nat → Nat) (p : Option Nat)
    (blk b2 : BuilderBlock) (rest : List BuilderBlock) :
    link_blocks crc p (blk :: b2 :: rest) =
      (blk.block_offset, mk_block crc blk (linkPrev p blk.block_offset)
          ((b2.block_offset : Int) - (blk.block_offset : Int))) ::
        link_blocks crc (some blk.block_offset) (b2 :: rest) := rfl

/-- Traversing a correctly linked suffix of the chain from its first block
reads back exactly that suffix: the whole file is `pre` (already traversed
blocks, at smaller offsets) followed by the linked suffix, visited offsets are
all smaller than the current block's offset, and offsets strictly increase
along the suffix. -/
theorem read_chain_suffix (crc : List Nat → Nat) (file : StorageFileImage) :
    ∀ (bs : List BuilderBlock) (blk : BuilderBlock) (pre : StorageFileImage)
      (p : Option Nat) (fuel : Nat) (visited : List Nat),
      file = pre ++ link_blocks crc p (blk :: bs) →
      (∀ e ∈ pre, e.1 < blk.block_offset) →
      (∀ v ∈ visited, v < blk.block_offset) →
      ((blk :: bs).map BuilderBlock.block_offset).Pairwise (· < ·) →
      bs.length < fuel →
      read_chain crc file fuel blk.block_offset visited =
        .ok (link_blocks crc p (blk :: bs)) := by
  intro bs
  induction bs with
  | nil =>
      intro blk pre p fuel visited hfile hpre hvis hsorted hfuel
      rcases fuel with _ | fuel
      · omega
      rw [read_chain]
      rw [if_neg (by intro hmem; exact absurd rfl (Nat.ne_of_lt (hvis _ hmem)))]
      rw [hfile, link_blocks_singleton,
        lookup_block_skip pre _ _ (fun e he => Nat.ne_of_lt (hpre e he)),
        lookup_block_cons_self]
      rw [Option.elim_some]
      rw [if_pos (block_valid_mk crc blk _ _)]
      rw [if_pos (show (mk_block crc blk (linkPrev p blk.block_offset)
        kNullFileOffset).next_offset = kNullFileOffset from rfl)]
  | cons b2 rest ih =>
      intro blk pre p fuel visited hfile hpre hvis hsorted hfuel
      rcases fuel with _ | fuel
      · omega
      have hlt : blk.block_offset < b2.block_offset := by
        have := (List.pairwise_cons.mp hsorted).1
        exact this b2.block_offset (by simp)
      rw [read_chain]
      rw [if_neg (by intro hmem; exact absurd rfl (Nat.ne_of_lt (hvis _ hmem)))]
      rw [hfile, link_blocks_cons_cons,
        lookup_block_skip pre _ _ (fun e he => Nat.ne_of_lt (hpre e he)),
        lookup_block_cons_self]
      rw [Option.elim_some]
      rw [if_pos (block_valid_mk crc blk _ _)]
      have hnext : (mk_block crc blk (linkPrev p blk.block_offset)
          ((b2.block_offset : Int) - (blk.block_offset : Int))).next_offset =
          (b2.block_offset : Int) - (blk.block_offset : Int) := rfl
      rw [hnext]
      rw [if_neg (by rw [kNullFileOffset_eq]; omega)]
      rw [if_neg (by omega)]
      have htn : ((blk.block_offset : Int) +
          ((b2.block_offset : Int) - (blk.block_offset : Int))).toNat =
          b2.block_offset := by omega
      rw [htn]
      have hrec := ih b2
        (pre ++ [(blk.block_offset, mk_block crc blk (linkPrev p blk.block_offset)
          ((b2.block_offset : Int) - (blk.block_offset : Int)))])
        (some blk.block_offset) fuel (blk.block_offset :: visited)
        (by rw [hfile, link_blocks_cons_cons]; simp)
        (by
          intro e he
          rcases List.mem_append.mp he with he | he
          · exact Nat.lt_trans (hpre e he) hlt
          · simp only [List.mem_singleton] at he
            rw [he]
            exact hlt)
        (by
          intro v hv
          rcases List.mem_cons.mp hv with rfl | hv
          · exact hlt
          · exact Nat.lt_trans (hvis v hv) hlt)
        (by exact (List.pairwise_cons.mp hsorted).2)
        (by simp only [List.length_cons] at hfuel; omega)
      have hfold : pre ++ (blk.block_offset, mk_block crc blk
          (linkPrev p blk.block_offset)
          ((b2.block_offset : Int) - (blk.block_offset : Int))) ::
          link_blocks crc (some blk.block_offset) (b2 :: rest) = file := by
        rw [hfile, link_blocks_cons_cons]
      rw [hfold, hrec]
      rw [except_map_ok]

theorem add_object_blocks_ne (o : PageDeviceConfigOptions) (b : Builder) :
    (b.add_object o).blocks_rev ≠ [] := by
  rcases hb : b.blocks_rev with _ | ⟨blk, rest⟩
  · rw [add_object_eq_new_of_nil o b hb]
    simp [Builder.add_to_new_block]
  · by_cases hlen : blk.entries.length < 62
    · rw [add_object_eq_append o b blk rest hb hlen]
      simp [Builder.add_to_block]
    · rw [add_object_eq_new_of_full o b blk rest hb hlen]
      simp [Builder.add_to_new_block]

theorem foldl_blocks_ne (opts : List PageDeviceConfigOptions) :
    ∀ b : Builder, b.blocks_rev ≠ [] →
      (opts.foldl (fun b o => b.add_object o) b).blocks_rev ≠ [] := by
  induction opts with
  | nil => intro b h; exact h
  | cons o rest ih => intro b _; exact ih _ (add_object_blocks_ne o b)

theorem build_blocks_ne (base : Nat) (opts : List PageDeviceConfigOptions)
    (h : opts ≠ []) : (build base opts).blocks_rev ≠ [] := by
  rcases opts with _ | ⟨o, rest⟩
  · exact absurd rfl h
  · exact foldl_blocks_ne rest _ (add_object_blocks_ne o _)

/-- The offsets of the builder's blocks, in chain order, strictly increase. -/
theorem blocks_sorted (base : Nat) (b : Builder) (h : BInv base b) :
    (b.blocks.map BuilderBlock.block_offset).Pairwise (· < ·) := by
  unfold Builder.blocks
  rw [List.map_reverse]
  rw [List.pairwise_reverse]
  exact h.sorted

/-- The first block of the chain sits at `round_up_bits 12 base`. -/
theorem blocks_head_offset (base : Nat) (b : Builder) (h : BInv base b)
    (blk0 : BuilderBlock) (bs : List BuilderBlock) (hb : b.blocks = blk0 :: bs) :
    blk0.block_offset = round_up_bits 12 base := by
  have hlast : b.blocks_rev.getLast? = some blk0 := by
    have := List.head?_reverse b.blocks_rev
    unfold Builder.blocks at hb
    rw [hb] at this
    simpa using this.symm
  apply h.first_off
  rw [List.getLast?_map, hlast]
  rfl

/-- C2 (amended to nonempty builds; an empty build flushes no blocks and the
reader then reports `DataLoss` rather than an empty list): for every nonempty
sequence of valid `add_object` calls followed by `flush_all`,
`read_storage_file` starting at the builder's base offset returns exactly the
list of finalized blocks, with their offsets, that the builder flushed. -/
theorem c2_write_read_round_trip (crc : List Nat → Nat) (base : Nat)
    (opts : List PageDeviceConfigOptions) (hne : opts ≠ [])
    (_hval : ∀ o ∈ opts, ValidOptions o) :
    read_storage_file crc (flush_blocks crc (build base opts)) base =
      .ok (flush_blocks crc (build base opts)) := by
  have hinv := build_inv base opts
  have hnn : (build base opts).blocks ≠ [] := by
    unfold Builder.blocks
    simp only [ne_eq, List.reverse_eq_nil_iff]
    exact build_blocks_ne base opts hne
  rcases hb : (build base opts).blocks with _ | ⟨blk0, bs⟩
  · exact absurd hb hnn
  have hoff : blk0.block_offset = round_up_bits 12 base :=
    blocks_head_offset base _ hinv blk0 bs hb
  have hsorted : ((blk0 :: bs).map BuilderBlock.block_offset).Pairwise (· < ·) := by
    rw [← hb]
    exact blocks_sorted base _ hinv
  have hlen : ((flush_blocks crc (build base opts)).length) = bs.length + 1 := by
    unfold flush_blocks
    rw [link_blocks_length, hb]
    rfl
  unfold read_storage_file
  rw [← hoff]
  have := read_chain_suffix crc (flush_blocks crc (build base opts)) bs blk0 []
    none ((flush_blocks crc (build base opts)).length + 1) []
    (by unfold flush_blocks; rw [hb]; rfl)
    (by intro e he; simp at he)
    (by intro v hv; simp at hv)
    hsorted
    (by omega)
  rw [this]
  unfold flush_blocks
  rw [hb]

/-- Witness for C2 at a concrete one-device build with base offset 0. -/
theorem c2_write_read_round_trip_witness :
    (([⟨none, none, 10, 12⟩] : List PageDeviceConfigOptions) ≠ []
      ∧ (∀ o ∈ ([⟨none, none, 10, 12⟩] : List PageDeviceConfigOptions),
          ValidOptions o))
    ∧ read_storage_file (fun _ => 0)
        (flush_blocks (fun _ => 0) (build 0 [⟨none, none, 10, 12⟩])) 0 =
      .ok (flush_blocks (fun _ => 0) (build 0 [⟨none, none, 10, 12⟩])) :=
  ⟨⟨by decide, by decide⟩,
    c2_write_read_round_trip (fun _ => 0) 0 [⟨none, none, 10, 12⟩]
      (by decide) (by decide)⟩

/-- C2 counterexample: after zero `add_object` calls, `flush_all` finalizes no
blocks, and `read_storage_file` at the base offset reports `DataLoss` instead
of returning the (empty) list of finalized blocks. -/
theorem c2_empty_builder_counterexample :
    ¬(read_storage_file (fun _ => 0) (flush_blocks (fun _ => 0) (build 0 [])) 0 =
      .ok (flush_blocks (fun _ => 0) (build 0 []))) := by
  decide

theorem link_blocks_cons_ex (crc : List Nat → Nat) (p : Option Nat)
    (blk : BuilderBlock) (rest : List BuilderBlock) :
    ∃ nxt : Int,
      link_blocks crc p (blk :: rest) =
        (blk.block_offset, mk_block crc blk (linkPrev p blk.block_offset) nxt) ::
          link_blocks crc (some blk.block_offset) rest := by
  cases rest with
  | nil => exact ⟨kNullFileOffset, rfl⟩
  | cons b2 rest2 => exact ⟨(b2.block_offset : Int) - (blk.block_offset : Int), rfl⟩

/-- The first block of a chain linked with no predecessor stores the null
sentinel in `prev_offset`. -/
theorem link_blocks_head_prev (crc : List Nat → Nat) (bs : List BuilderBlock) :
    ∀ x, (link_blocks crc none bs).head? = some x →
      x.2.prev_offset = kNullFileOffset := by
  intro x hx
  cases bs with
  | nil => simp [link_blocks] at hx
  | cons blk rest =>
      obtain ⟨nxt, hn⟩ := link_blocks_cons_ex crc none blk rest
      rw [hn] at hx
      simp only [List.head?_cons, Option.some.injEq] at hx
      rw [← hx]
      rfl

/-- The last block of a linked chain stores the null sentinel in
`next_offset`. -/
theorem link_blocks_last_next (crc : List Nat → Nat) :
    ∀ (bs : List BuilderBlock) (p : Option Nat) (x : Nat × PackedConfigBlock),
      (link_blocks crc p bs).getLast? = some x →
      x.2.next_offset = kNullFileOffset := by
  intro bs
  induction bs with
  | nil => intro p x hx; simp [link_blocks] at hx
  | cons blk rest ih =>
      intro p x hx
      cases rest with
      | nil =>
          rw [link_blocks_singleton] at hx
          simp only [List.getLast?_singleton, Option.some.injEq] at hx
          rw [← hx]
          rfl
      | cons b2 rest2 =>
          rw [link_blocks_cons_cons] at hx
          have h2 : (link_blocks crc (some blk.block_offset) (b2 :: rest2)).getLast?
              = some x := by
            obtain ⟨nxt, hn⟩ := link_blocks_cons_ex crc (some blk.block_offset) b2 rest2
            rw [hn] at hx ⊢
            rwa [List.getLast?_cons_cons] at hx
          exact ih (some blk.block_offset) x h2

/-- Adjacent blocks of a linked chain: the relative `next_offset` of a block is
the offset gap to its successor, and the successor's `prev_offset` is the
negated gap. -/
theorem link_blocks_adjacent (crc : List Nat → Nat) :
    ∀ (bs : List BuilderBlock) (p : Option Nat) (i : Nat)
      (xi xj : Nat × PackedConfigBlock),
      (link_blocks crc p bs)[i]? = some xi →
      (link_blocks crc p bs)[i + 1]? = some xj →
      xi.2.next_offset = (xj.1 : Int) - (xi.1 : Int)
      ∧ xj.2.prev_offset = (xi.1 : Int) - (xj.1 : Int) := by
  intro bs
  induction bs with
  | nil => intro p i xi xj hxi _; simp [link_blocks] at hxi
  | cons blk rest ih =>
      intro p i xi xj hxi hxj
      cases rest with
      | nil =>
          rw [link_blocks_singleton] at hxj
          rcases i with _ | i <;> simp at hxj
      | cons b2 rest2 =>
          rcases i with _ | i
          · rw [link_blocks_cons_cons] at hxi hxj
            simp only [List.getElem?_cons_zero, Option.some.injEq] at hxi
            rw [List.getElem?_cons_succ] at hxj
            obtain ⟨nxt, hn⟩ := link_blocks_cons_ex crc (some blk.block_offset) b2 rest2
            rw [hn] at hxj
            simp only [List.getElem?_cons_zero, Option.some.injEq] at hxj
            rw [← hxi, ← hxj]
            constructor
            · rfl
            · rfl
          · rw [link_blocks_cons_cons] at hxi hxj
            rw [List.getElem?_cons_succ] at hxi hxj
            exact ih (some blk.block_offset) i xi xj hxi hxj

/-- C4: for every finalized chain of config blocks at file offsets
`F_0 < … < F_{k-1}`: the first block's `prev_offset` and the last block's
`next_offset` are `kNullFileOffset`, and for adjacent blocks
`B_i.next_offset = F_{i+1} - F_i` while
`B_{i+1}.prev_offset = F_i - F_{i+1} = -B_i.next_offset`. -/
theorem c4_chain_linkage (crc : List Nat → Nat) (b : Builder) :
    (∀ x, (flush_blocks crc b).head? = some x →
      x.2.prev_offset = kNullFileOffset)
    ∧ (∀ x, (flush_blocks crc b).getLast? = some x →
      x.2.next_offset = kNullFileOffset)
    ∧ (∀ (i : Nat) (xi xj : Nat × PackedConfigBlock),
        (flush_blocks crc b)[i]? = some xi →
        (flush_blocks crc b)[i + 1]? = some xj →
        xi.2.next_offset = (xj.1 : Int) - (xi.1 : Int)
        ∧ xj.2.prev_offset = (xi.1 : Int) - (xj.1 : Int)
        ∧ xj.2.prev_offset = -xi.2.next_offset) := by
  refine ⟨?_, ?_, ?_⟩
  · exact link_blocks_head_prev crc b.blocks
  · exact link_blocks_last_next crc b.blocks none
  · intro i xi xj hxi hxj
    obtain ⟨h1, h2⟩ := link_blocks_adjacent crc b.blocks none i xi xj hxi hxj
    refine ⟨h1, h2, ?_⟩
    rw [h1, h2]
    omega

/-- Witness for C4 at the concrete two-block chain of `c4wBuilder`. -/
theorem c4_chain_linkage_witness :
    (flush_blocks crcZero c4wBuilder).head? = some c4wX0
    ∧ (flush_blocks crcZero c4wBuilder).getLast? = some c4wX1
    ∧ (flush_blocks crcZero c4wBuilder)[0]? = some c4wX0
    ∧ (flush_blocks crcZero c4wBuilder)[1]? = some c4wX1
    ∧ c4wX0.2.prev_offset = kNullFileOffset
    ∧ c4wX1.2.next_offset = kNullFileOffset
    ∧ c4wX0.2.next_offset = (c4wX1.1 : Int) - (c4wX0.1 : Int)
    ∧ c4wX1.2.prev_offset = -c4wX0.2.next_offset :=
  ⟨rfl, rfl, rfl, rfl,
    (c4_chain_linkage crcZero c4wBuilder).1 c4wX0 rfl,
    (c4_chain_linkage crcZero c4wBuilder).2.1 c4wX1 rfl,
    ((c4_chain_linkage crcZero c4wBuilder).2.2 0 c4wX0 c4wX1 rfl rfl).1,
    ((c4_chain_linkage crcZero c4wBuilder).2.2 0 c4wX0 c4wX1 rfl rfl).2.2⟩

theorem add_object_counts (o : PageDeviceConfigOptions) (b : Builder) :
    (b.add_object o).blocks_rev.map (fun blk => blk.entries.length) =
      step_counts (b.blocks_rev.map (fun blk => blk.entries.length)) := by
  rcases hb : b.blocks_rev with _ | ⟨blk, rest⟩
  · rw [add_object_eq_new_of_nil o b hb]
    simp [Builder.add_to_new_block, step_counts, hb]
  · by_cases hlen : blk.entries.length < 62
    · rw [add_object_eq_append o b blk rest hb hlen]
      simp [Builder.add_to_block, step_counts, hlen]
    · rw [add_object_eq_new_of_full o b blk rest hb hlen]
      simp [Builder.add_to_new_block, step_counts, hb, hlen]

theorem foldl_counts (opts : List PageDeviceConfigOptions) :
    ∀ b : Builder,
      ((opts.foldl (fun b o => b.add_object o) b).blocks_rev.map
        (fun blk => blk.entries.length)) =
      step_counts^[opts.length]
        (b.blocks_rev.map (fun blk => blk.entries.length)) := by
  induction opts with
  | nil => intro b; rfl
  | cons o rest ih =>
      intro b
      simp only [List.foldl_cons, List.length_cons]
      rw [ih (b.add_object o), add_object_counts,
        Function.iterate_succ_apply]

theorem rcounts_eq_iterate (n : Nat) : rcounts n = step_counts^[n] [] := by
  induction n with
  | zero => rfl
  | succ n ih =>
      rw [Function.iterate_succ_apply']
      rw [rcounts, ih]

theorem build_counts (base : Nat) (opts : List PageDeviceConfigOptions) :
    (build base opts).blocks_rev.map (fun blk => blk.entries.length) =
      rcounts opts.length := by
  unfold build
  rw [foldl_counts opts (Builder.init base), rcounts_eq_iterate]
  rfl

theorem rcounts_closed (n : Nat) (hn : 0 < n) :
    rcounts n = (if n % 62 = 0 then 62 else n % 62) ::
      List.replicate ((n + 61) / 62 - 1) 62 := by
  induction n with
  | zero => omega
  | succ m ih =>
      by_cases hm : m = 0
      · subst hm
        decide
      · have hm1 : 0 < m := by omega
        rw [rcounts, ih hm1]
        by_cases hr : m % 62 = 0
        · rw [if_pos hr]
          simp only [step_counts]
          rw [if_neg (by omega)]
          rw [if_neg (show ¬(m + 1) % 62 = 0 by omega)]
          have h2 : (m + 1) % 62 = 1 := by omega
          rw [h2]
          have h3 : (m + 1 + 61) / 62 - 1 = ((m + 61) / 62 - 1) + 1 := by omega
          rw [h3, List.replicate_succ]
        · rw [if_neg hr]
          simp only [step_counts]
          rw [if_pos (Nat.mod_lt m (by omega))]
          by_cases hz : (m + 1) % 62 = 0
          · rw [if_pos hz]
            have h2 : m % 62 + 1 = 62 := by omega
            rw [h2]
            have h3 : (m + 1 + 61) / 62 - 1 = (m + 61) / 62 - 1 := by omega
            rw [h3]
          · rw [if_neg hz]
            have h2 : m % 62 + 1 = (m + 1) % 62 := by omega
            rw [h2]
            have h3 : (m + 1 + 61) / 62 - 1 = (m + 61) / 62 - 1 := by omega
            rw [h3]

/-- C3: after `N` objects the builder holds `⌈N/62⌉` config blocks; every block
before the last holds exactly 62 slots, and the last holds `N mod 62` slots
(62 when `N mod 62 = 0`); in particular 125 objects yield 3 blocks with slot
counts 62, 62, 1. -/
theorem c3_slot_counts (base : Nat) (opts : List PageDeviceConfigOptions)
    (hne : opts ≠ []) :
    (build base opts).blocks.length = (opts.length + 61) / 62
    ∧ (build base opts).blocks.map (fun blk => blk.entries.length)
        = List.replicate ((opts.length + 61) / 62 - 1) 62 ++
            [if opts.length % 62 = 0 then 62 else opts.length % 62]
    ∧ (build 0 (List.replicate 125 ⟨none, none, 10, 9⟩)).blocks.map
        (fun blk => blk.entries.length) = [62, 62, 1] := by
  have hn : 0 < opts.length := List.length_pos.mpr hne
  have hmap : (build base opts).blocks.map (fun blk => blk.entries.length)
      = List.replicate ((opts.length + 61) / 62 - 1) 62 ++
          [if opts.length % 62 = 0 then 62 else opts.length % 62] := by
    unfold Builder.blocks
    rw [List.map_reverse, build_counts, rcounts_closed opts.length hn,
      List.reverse_cons, List.reverse_replicate]
  refine ⟨?_, hmap, by decide⟩
  have hlen := congrArg List.length hmap
  rw [List.length_map] at hlen
  rw [hlen]
  simp only [List.length_append, List.length_replicate, List.length_singleton]
  omega

/-- Witness for C3 at a concrete single-device build. -/
theorem c3_slot_counts_witness :
    (([⟨none, none, 10, 9⟩] : List PageDeviceConfigOptions) ≠ [])
    ∧ ((build 0 [⟨none, none, 10, 9⟩]).blocks.length = 1
      ∧ (build 0 [⟨none, none, 10, 9⟩]).blocks.map
          (fun blk => blk.entries.length) = List.replicate 0 62 ++ [1]
      ∧ (build 0 (List.replicate 125 ⟨none, none, 10, 9⟩)).blocks.map
          (fun blk => blk.entries.length) = [62, 62, 1]) :=
  ⟨by decide, c3_slot_counts 0 [⟨none, none, 10, 9⟩] (by decide)⟩

theorem add_object_next_device_id (o : PageDeviceConfigOptions) (b : Builder) :
    (b.add_object o).next_device_id = b.next_device_id + 1 := by
  rcases hb : b.blocks_rev with _ | ⟨blk, rest⟩
  · rw [add_object_eq_new_of_nil o b hb]
    rfl
  · by_cases hlen : blk.entries.length < 62
    · rw [add_object_eq_append o b blk rest hb hlen]
      rfl
    · rw [add_object_eq_new_of_full o b blk rest hb hlen]
      rfl

/-- One `add_object` call with an absent `device_id` appends a single slot
entry, carrying the builder's next sequential device id, to the end of the
concatenated slot sequence. -/
theorem add_object_device_ids (o : PageDeviceConfigOptions) (b : Builder)
    (ho : o.device_id = none) :
    (((b.add_object o).blocks.flatMap (fun blk => blk.entries)).map
        (fun e => e.device_id)) =
      ((b.blocks.flatMap (fun blk => blk.entries)).map (fun e => e.device_id)) ++
        [b.next_device_id] := by
  rcases hb : b.blocks_rev with _ | ⟨blk, rest⟩
  · rw [add_object_eq_new_of_nil o b hb]
    simp [Builder.add_to_new_block, Builder.blocks, hb, ho]
  · by_cases hlen : blk.entries.length < 62
    · rw [add_object_eq_append o b blk rest hb hlen]
      simp [Builder.add_to_block, Builder.blocks, hb, ho]
    · rw [add_object_eq_new_of_full o b blk rest hb hlen]
      simp [Builder.add_to_new_block, Builder.blocks, hb, ho]

theorem foldl_device_ids (opts : List PageDeviceConfigOptions) :
    ∀ b : Builder, (∀ o ∈ opts, o.device_id = none) →
      ((b.blocks.flatMap (fun blk => blk.entries)).map (fun e => e.device_id)) =
        List.range b.next_device_id →
      (((opts.foldl (fun b o => b.add_object o) b).blocks.flatMap
          (fun blk => blk.entries)).map (fun e => e.device_id)) =
        List.range (opts.foldl (fun b o => b.add_object o) b).next_device_id := by
  induction opts with
  | nil => intro b _ h; exact h
  | cons o rest ih =>
      intro b hall h
      simp only [List.foldl_cons]
      apply ih (b.add_object o) (fun o2 h2 => hall o2 (List.mem_cons_of_mem _ h2))
      rw [add_object_device_ids o b (hall o (List.mem_cons_self _ _)), h,
        add_object_next_device_id, List.range_succ]

/-- C9: when `device_id` is absent from the options, the builder assigns device
ids sequentially from 0, one per added object, across all config blocks: the
concatenated slot sequence of the finished build carries device ids
`0, 1, …, N-1`. -/
theorem c9_sequential_device_ids (base : Nat)
    (opts : List PageDeviceConfigOptions)
    (h : ∀ o ∈ opts, o.device_id = none) :
    (((build base opts).blocks.flatMap (fun blk => blk.entries)).map
        (fun e => e.device_id)) = List.range opts.length := by
  have hnd : ∀ (os : List PageDeviceConfigOptions) (b : Builder),
      (os.foldl (fun b o => b.add_object o) b).next_device_id =
        b.next_device_id + os.length := by
    intro os
    induction os with
    | nil => intro b; rfl
    | cons o rest ih =>
        intro b
        simp only [List.foldl_cons, List.length_cons]
        rw [ih (b.add_object o), add_object_next_device_id]
        omega
  have h0 := foldl_device_ids opts (Builder.init base) h
    (by simp [Builder.init, Builder.blocks])
  unfold build
  rw [h0, hnd opts (Builder.init base)]
  rw [show (Builder.init base).next_device_id = 0 from rfl, Nat.zero_add]

/-- Witness for C9 at a concrete two-device build. -/
theorem c9_sequential_device_ids_witness :
    (∀ o ∈ ([⟨none, none, 10, 9⟩, ⟨none, none, 7, 12⟩] :
        List PageDeviceConfigOptions), o.device_id = none)
    ∧ (((build 0 [⟨none, none, 10, 9⟩, ⟨none, none, 7, 12⟩]).blocks.flatMap
        (fun blk => blk.entries)).map (fun e => e.device_id)) = List.range 2 :=
  ⟨by decide,
    c9_sequential_device_ids 0 [⟨none, none, 10, 9⟩, ⟨none, none, 7, 12⟩]
      (by decide)⟩

theorem entries_ok_append (blkoff : Nat) :
    ∀ (l : List SlotEntry) (i : Nat) (e : SlotEntry),
      entries_ok blkoff i l → entry_ok blkoff (i + l.length) e →
      entries_ok blkoff i (l ++ [e]) := by
  intro l
  induction l with
  | nil =>
      intro i e _ he
      exact ⟨by simpa using he, trivial⟩
  | cons a rest ih =>
      intro i e hl he
      refine ⟨hl.1, ih (i + 1) e hl.2 ?_⟩
      have harith : i + 1 + rest.length = i + (a :: rest).length := by
        simp
        omega
      rw [harith]
      exact he

theorem entries_ok_get (blkoff : Nat) :
    ∀ (l : List SlotEntry) (j : Nat), entries_ok blkoff j l →
      ∀ (i : Nat) (h : i < l.length), entry_ok blkoff (j + i) (l.get ⟨i, h⟩) := by
  intro l
  induction l with
  | nil => intro j _ i h; simp at h
  | cons a rest ih =>
      intro j hok i h
      rcases i with _ | i
      · simpa using hok.1
      · have := ih (j + 1) hok.2 i (by simpa using h)
        have harith : j + 1 + i = j + (i + 1) := by omega
        rw [harith] at this
        exact this

theorem add_object_slots_ok (o : PageDeviceConfigOptions) (b : Builder)
    (h : slots_ok b) : slots_ok (b.add_object o) := by
  rcases hb : b.blocks_rev with _ | ⟨blk, rest⟩
  · rw [add_object_eq_new_of_nil o b hb]
    intro blk2 hblk2
    simp only [Builder.add_to_new_block, List.mem_cons, hb, List.not_mem_nil,
      or_false] at hblk2
    subst hblk2
    refine ⟨⟨?_, dvd_round_up_bits _ _⟩, trivial⟩
    simp only
  · by_cases hlen : blk.entries.length < 62
    · rw [add_object_eq_append o b blk rest hb hlen]
      intro blk2 hblk2
      simp only [Builder.add_to_block, List.mem_cons] at hblk2
      rcases hblk2 with rfl | hblk2
      · simp only
        apply entries_ok_append
        · exact h blk (by rw [hb]; exact List.mem_cons_self _ _)
        · refine ⟨?_, dvd_round_up_bits _ _⟩
          simp only
          omega
      · exact h blk2 (by rw [hb]; exact List.mem_cons_of_mem _ hblk2)
    · rw [add_object_eq_new_of_full o b blk rest hb hlen]
      intro blk2 hblk2
      simp only [Builder.add_to_new_block, List.mem_cons] at hblk2
      rcases hblk2 with rfl | hblk2
      · refine ⟨⟨?_, dvd_round_up_bits _ _⟩, trivial⟩
        simp only
      · exact h blk2 hblk2

theorem build_slots_ok (base : Nat) (opts : List PageDeviceConfigOptions) :
    slots_ok (build base opts) := by
  have hstep : ∀ (os : List PageDeviceConfigOptions) (b : Builder), slots_ok b →
      slots_ok (os.foldl (fun b o => b.add_object o) b) := by
    intro os
    induction os with
    | nil => intro b hb; exact hb
    | cons o rest ih => intro b hb; exact ih _ (add_object_slots_ok o b hb)
  apply hstep
  intro blk hblk
  simp [Builder.init] at hblk

/-- C1: for every object added by the builder, the `page_0_offset` stored in
its slot equals the absolute page-0 payload offset minus the slot's absolute
offset (block offset + 64-byte fixed header + 64 bytes per preceding slot),
with the payload offset aligned to the page size; for a single object the
payload offset is `round_up_bits page_size_log2` of the offset just past the
config block, and concretely `base_offset = 128`, `page_size_log2 = 12` store
`8192 - 4160 = 4032`. -/
theorem c1_page0_offset (base : Nat) (opts : List PageDeviceConfigOptions) :
    (∀ blk ∈ (build base opts).blocks, ∀ (i : Nat) (h : i < blk.entries.length),
        (blk.entries.get ⟨i, h⟩).page_0_offset =
            ((blk.entries.get ⟨i, h⟩).payload_start : Int) -
              ((blk.block_offset + 64 + 64 * i : Nat) : Int)
          ∧ 2 ^ (blk.entries.get ⟨i, h⟩).page_size_log2 ∣
              (blk.entries.get ⟨i, h⟩).payload_start)
    ∧ (∀ o : PageDeviceConfigOptions,
        ((build base [o]).blocks.flatMap (fun blk => blk.entries)).map
            (fun e => e.page_0_offset) =
          [(round_up_bits o.page_size_log2 (round_up_bits 12 base + 4096) : Int) -
            ((round_up_bits 12 base + 64 : Nat) : Int)])
    ∧ ((build 128 [⟨none, none, 10, 12⟩]).blocks.flatMap
        (fun blk => blk.entries)).map (fun e => e.page_0_offset) = [4032] := by
  refine ⟨?_, ?_, by decide⟩
  · intro blk hblk i h
    have hmem : blk ∈ (build base opts).blocks_rev := by
      unfold Builder.blocks at hblk
      exact List.mem_reverse.mp hblk
    have hok := build_slots_ok base opts blk hmem
    have := entries_ok_get blk.block_offset blk.entries 0 hok i h
    simpa using this
  · intro o
    have hstep : build base [o] = (Builder.init base).add_to_new_block o :=
      add_object_eq_new_of_nil o (Builder.init base) rfl
    rw [hstep]
    simp [Builder.add_to_new_block, Builder.init, Builder.blocks]

/-- Witness for C1 at a concrete single-device build with base offset 0. -/
theorem c1_page0_offset_witness :
    c1wBlk ∈ (build 0 [⟨none, none, 10, 12⟩]).blocks
    ∧ ((c1wBlk.entries.get ⟨0, by decide⟩).page_0_offset =
          ((c1wBlk.entries.get ⟨0, by decide⟩).payload_start : Int) -
            ((c1wBlk.block_offset + 64 + 64 * 0 : Nat) : Int)
        ∧ 2 ^ (c1wBlk.entries.get ⟨0, by decide⟩).page_size_log2 ∣
            (c1wBlk.entries.get ⟨0, by decide⟩).payload_start) :=
  ⟨by decide,
    (c1_page0_offset 0 [⟨none, none, 10, 12⟩]).1 c1wBlk (by decide) 0 (by decide)⟩

/-- Every block flushed from a build serializes to exactly 4096 bytes (the slot
count never exceeds 62). -/
theorem flush_image_length (crc : List Nat → Nat) (base : Nat)
    (opts : List PageDeviceConfigOptions) :
    ∀ x ∈ flush_blocks crc (build base opts), (block_image x.2).length = 4096 := by
  intro x hx
  obtain ⟨blk, hblk, prev, next, rfl⟩ :=
    mem_link_blocks crc none (build base opts).blocks x hx
  have hle : blk.entries.length ≤ 62 := by
    apply (build_inv base opts).slots_le
    unfold Builder.blocks at hblk
    exact List.mem_reverse.mp hblk
  apply block_image_length
  rw [mk_block_slots, List.length_map]
  exact hle

/-- C5: every config block produced by `flush_all` serializes to exactly 4096
bytes and carries the correct magic, the version `(0 << 32) | (1 << 16) | 0`
built by `make_version_u64`, and a `crc64` field equal to `true_crc64` (the CRC
of the block image with the `crc64` field zeroed), for any CRC-64 function. -/
theorem c5_block_integrity (crc : List Nat → Nat) (base : Nat)
    (opts : List PageDeviceConfigOptions) :
    ∀ x ∈ flush_blocks crc (build base opts),
      (block_image x.2).length = 4096
      ∧ x.2.magic = kMagic
      ∧ x.2.version = make_version_u64 0 1 0
      ∧ x.2.crc64 = true_crc64 crc x.2 := by
  intro x hx
  obtain ⟨blk, hblk, prev, next, rfl⟩ :=
    mem_link_blocks crc none (build base opts).blocks x hx
  refine ⟨flush_image_length crc base opts _ hx, rfl, rfl,
    mk_block_crc crc blk prev next⟩

/-- Witness for C5 at a concrete single-device build. -/
theorem c5_block_integrity_witness :
    c5wX ∈ flush_blocks crcZero (build 0 [⟨none, none, 10, 12⟩])
    ∧ ((block_image c5wX.2).length = 4096
      ∧ c5wX.2.magic = kMagic
      ∧ c5wX.2.version = make_version_u64 0 1 0
      ∧ c5wX.2.crc64 = true_crc64 crcZero c5wX.2) :=
  ⟨by decide,
    c5_block_integrity crcZero 0 [⟨none, none, 10, 12⟩] c5wX (by decide)⟩

theorem write_plan_cons (crc : List Nat → Nat) (fastInit : Bool) (b : Builder)
    (h : b.blocks_rev ≠ []) :
    write_plan crc fastInit b =
      .truncate b.next_free ::
        ((if fastInit then []
          else (b.blocks.flatMap (fun blk => blk.entries)).flatMap preinit_writes) ++
          (flush_blocks crc b).map (fun e => .write e.1 (block_image e.2))) := by
  unfold write_plan
  rw [if_neg (by simpa using h)]

theorem preinit_ops_shape (b : Builder) :
    ∀ op ∈ (b.blocks.flatMap (fun blk => blk.entries)).flatMap preinit_writes,
      ∃ off, op = .write off (List.replicate 512 0) := by
  intro op hop
  rw [List.mem_flatMap] at hop
  obtain ⟨e, _, hop⟩ := hop
  rw [preinit_writes, List.mem_map] at hop
  obtain ⟨j, _, rfl⟩ := hop
  exact ⟨_, rfl⟩

theorem block_ops_shape (crc : List Nat → Nat) (base : Nat)
    (opts : List PageDeviceConfigOptions) :
    ∀ op ∈ (flush_blocks crc (build base opts)).map
        (fun e => IoOp.write e.1 (block_image e.2)),
      ∃ off bytes, op = .write off bytes ∧ bytes.length = 4096 := by
  intro op hop
  rw [List.mem_map] at hop
  obtain ⟨e, he, rfl⟩ := hop
  exact ⟨e.1, block_image e.2, rfl, flush_image_length crc base opts e he⟩

theorem filterMap_block_writes (fileL : List (Nat × PackedConfigBlock))
    (h : ∀ e ∈ fileL, (block_image e.2).length = 4096) :
    (fileL.map (fun e => IoOp.write e.1 (block_image e.2))).filterMap
        block_write_off = fileL.map Prod.fst := by
  induction fileL with
  | nil => rfl
  | cons e rest ih =>
      rw [List.map_cons, List.map_cons,
        List.filterMap_cons_some
          (show block_write_off (IoOp.write e.1 (block_image e.2)) = some e.1 from
            by simp [block_write_off, h e (List.mem_cons_self _ _)]),
        ih (fun e2 h2 => h e2 (List.mem_cons_of_mem _ h2))]

/-- C6: the I/O plan of `flush_all` starts with `truncate_at_least` at the
final file size (45056 for one device with base 0, `page_size_log2 = 12`,
`page_count = 10`), truncation is the only such call and precedes everything;
with `kFastIoRingPageDeviceInit = false` every 512-byte page pre-init write
precedes every 4096-byte config block write; and the block writes occur in
chain order `B_0 … B_{k-1}`. -/
theorem c6_flush_write_plan (crc : List Nat → Nat) (base : Nat)
    (opts : List PageDeviceConfigOptions) (hne : opts ≠ []) :
    (write_plan crc false (build base opts)).head? =
        some (.truncate (build base opts).next_free)
    ∧ (∀ (i l : Nat),
        (write_plan crc false (build base opts))[i]? = some (.truncate l) →
        i = 0 ∧ l = (build base opts).next_free)
    ∧ (∀ (i j o1 o2 : Nat) (d1 d2 : List Nat),
        (write_plan crc false (build base opts))[i]? = some (.write o1 d1) →
        d1.length = 512 →
        (write_plan crc false (build base opts))[j]? = some (.write o2 d2) →
        d2.length = 4096 →
        i < j)
    ∧ (write_plan crc false (build base opts)).filterMap block_write_off =
        (flush_blocks crc (build base opts)).map Prod.fst
    ∧ (write_plan crcZero false (build 0 [⟨none, none, 10, 12⟩])).head? =
        some (.truncate 45056) := by
  have hplan := write_plan_cons crc false (build base opts)
    (build_blocks_ne base opts hne)
  rw [if_neg (by simp)] at hplan
  refine ⟨by rw [hplan]; rfl, ?_, ?_, ?_, by decide⟩
  · intro i l hi
    rw [hplan] at hi
    rcases i with _ | i
    · rw [List.getElem?_cons_zero] at hi
      simp only [Option.some.injEq, IoOp.truncate.injEq] at hi
      exact ⟨rfl, hi.symm⟩
    · rw [List.getElem?_cons_succ] at hi
      have hmem := List.getElem?_mem hi
      rcases List.mem_append.mp hmem with hmem | hmem
      · obtain ⟨off, hop⟩ := preinit_ops_shape (build base opts) _ hmem
        exact absurd hop (by intro hc; cases hc)
      · obtain ⟨off, bytes, hop, _⟩ := block_ops_shape crc base opts _ hmem
        exact absurd hop (by intro hc; cases hc)
  · intro i j o1 o2 d1 d2 hi h512 hj h4096
    rw [hplan] at hi hj
    rcases i with _ | i
    · rw [List.getElem?_cons_zero] at hi
      simp at hi
    rcases j with _ | j
    · rw [List.getElem?_cons_zero] at hj
      simp at hj
    rw [List.getElem?_cons_succ] at hi hj
    have hilt : i < (((build base opts).blocks.flatMap
        (fun blk => blk.entries)).flatMap preinit_writes).length := by
      by_contra hge
      rw [List.getElem?_append_right (by omega)] at hi
      have hmem := List.getElem?_mem hi
      obtain ⟨off, bytes, hop, hblen⟩ := block_ops_shape crc base opts _ hmem
      cases hop
      omega
    have hjge : (((build base opts).blocks.flatMap
        (fun blk => blk.entries)).flatMap preinit_writes).length ≤ j := by
      by_contra hlt
      rw [List.getElem?_append_left (by omega)] at hj
      have hmem := List.getElem?_mem hj
      obtain ⟨off, hop⟩ := preinit_ops_shape (build base opts) _ hmem
      cases hop
      simp at h4096
    omega
  · rw [hplan, List.filterMap_cons_none rfl, List.filterMap_append]
    rw [List.filterMap_eq_nil_iff.mpr (by
      intro op hop
      obtain ⟨off, hop⟩ := preinit_ops_shape (build base opts) _ hop
      subst hop
      simp [block_write_off])]
    rw [List.nil_append,
      filterMap_block_writes _ (flush_image_length crc base opts)]

/-- Witness for C6 at a concrete single-device build with base offset 0. -/
theorem c6_flush_write_plan_witness :
    (([⟨none, none, 10, 12⟩] : List PageDeviceConfigOptions) ≠ [])
    ∧ ((write_plan crcZero false (build 0 [⟨none, none, 10, 12⟩])).head? =
        some (.truncate (build 0 [⟨none, none, 10, 12⟩]).next_free)
      ∧ (∀ (i l : Nat),
          (write_plan crcZero false (build 0 [⟨none, none, 10, 12⟩]))[i]? =
            some (.truncate l) →
          i = 0 ∧ l = (build 0 [⟨none, none, 10, 12⟩]).next_free)
      ∧ (∀ (i j o1 o2 : Nat) (d1 d2 : List Nat),
          (write_plan crcZero false (build 0 [⟨none, none, 10, 12⟩]))[i]? =
            some (.write o1 d1) →
          d1.length = 512 →
          (write_plan crcZero false (build 0 [⟨none, none, 10, 12⟩]))[j]? =
            some (.write o2 d2) →
          d2.length = 4096 →
          i < j)
      ∧ (write_plan crcZero false (build 0 [⟨none, none, 10, 12⟩])).filterMap
            block_write_off =
          (flush_blocks crcZero (build 0 [⟨none, none, 10, 12⟩])).map Prod.fst
      ∧ (write_plan crcZero false (build 0 [⟨none, none, 10, 12⟩])).head? =
          some (.truncate 45056)) :=
  ⟨by decide, c6_flush_write_plan crcZero 0 [⟨none, none, 10, 12⟩] (by decide)⟩

end LlfsSpec

